import Mathlib

/-!
Verification of the rumq MQTT stack: the mqtt4bytes codec (SubAck / PubRel
assembly), the rumqttlog router connection backpressure slot, and the
rumq-client event loop (stream error propagation, keep-alive pings, connect
timeouts).  Definitions are shallow embeddings of the Rust source; parts of
the repository that are external to the provided sources (the qos helper,
fixed-header parsing, packet encoders, channel semantics) are modelled from
the specification and marked as such.
-/

/-- View of an Except value as a sum, to derive decidable equality. -/
def exceptToSum {α β : Type} : Except α β → α ⊕ β
  | .error a => .inl a
  | .ok b => .inr b

instance {α β : Type} [DecidableEq α] [DecidableEq β] : DecidableEq (Except α β) := fun a b =>
  decidable_of_iff (exceptToSum a = exceptToSum b)
    (by cases a <;> cases b <;> simp [exceptToSum])

namespace Mqtt4

/-- Modelled from the spec: QoS levels are 0, 1, 2 (mqtt4bytes QoS enum,
declared outside the provided sources). -/
inductive QoS where
  | AtMostOnce
  | AtLeastOnce
  | ExactlyOnce
  deriving DecidableEq, Repr

/-- Numeric value of a QoS level. -/
def QoS.toNat : QoS → Nat
  | .AtMostOnce => 0
  | .AtLeastOnce => 1
  | .ExactlyOnce => 2

/-- Errors produced by the codec.  `PayloadSizeIncorrect` comes from
pubrel.rs; the others model the error values of the crate's shared Error
enum, which is outside the provided sources. -/
inductive Error where
  | PayloadSizeIncorrect
  | InvalidQoS (level : Nat)
  | InsufficientBytes
  | MalformedRemainingLength
  | InvalidPacketType (tYpe : Nat)
  deriving DecidableEq, Repr

/-- Modelled from the spec: the qos(num) helper validates num ∈ {0,1,2}
(decoding errors otherwise); declared in the crate root, outside the
provided sources. -/
def qos (num : Nat) : Except Error QoS :=
  match num with
  | 0 => .ok .AtMostOnce
  | 1 => .ok .AtLeastOnce
  | 2 => .ok .ExactlyOnce
  | n => .error (.InvalidQoS n)

/-- The fixed header of an MQTT frame, as consumed by the assemble
functions: byte length of the header itself and the remaining length. -/
structure FixedHeader where
  header_len : Nat
  remaining_len : Nat
  deriving DecidableEq, Repr

/-- A byte buffer is a list of byte values.  `none` results of the access
functions below model the panics of the bytes crate (advancing or reading
past the end of the buffer). -/
abbrev Bytes := List Nat

/-- bytes.advance(cnt): drop cnt bytes; panics (none) if fewer remain. -/
def Bytes.advance (cnt : Nat) (b : Bytes) : Option Bytes :=
  if cnt ≤ b.length then some (b.drop cnt) else none

/-- bytes.get_u16(): big-endian u16 from the first two bytes; panics (none)
if fewer than two bytes remain. -/
def Bytes.getU16 (b : Bytes) : Option (Nat × Bytes) :=
  match b with
  | hi :: lo :: rest => some (hi * 256 + lo, rest)
  | _ => none

/-- bytes.get_u8(): first byte; panics (none) on an empty buffer. -/
def Bytes.getU8 (b : Bytes) : Option (Nat × Bytes) :=
  match b with
  | x :: rest => some (x, rest)
  | _ => none

/-- Subscription return code (suback.rs). -/
inductive SubscribeReturnCodes where
  | Success (q : QoS)
  | Failure
  deriving DecidableEq, Repr

/-- Acknowledgement to subscribe (suback.rs). -/
structure SubAck where
  pkid : Nat
  return_codes : List SubscribeReturnCodes
  deriving DecidableEq, Repr

/-- The while loop of SubAck::assemble: read `payload_bytes` return codes,
one byte each; a byte with the top bit set is Failure, otherwise
Success(qos(byte & 0x3)) where an invalid QoS propagates the error
immediately.  `none` models a panic reading past the buffer. -/
def readReturnCodes : Nat → Bytes → Option (Except Error (List SubscribeReturnCodes))
  | 0, _ => some (.ok [])
  | n + 1, b =>
    match b.getU8 with
    | none => none
    | some (return_code, rest) =>
      if return_code >>> 7 == 1 then
        match readReturnCodes n rest with
        | none => none
        | some (.error e) => some (.error e)
        | some (.ok codes) => some (.ok (.Failure :: codes))
      else
        match qos (return_code &&& 0x3) with
        | .error e => some (.error e)
        | .ok q =>
          match readReturnCodes n rest with
          | none => none
          | some (.error e) => some (.error e)
          | some (.ok codes) => some (.ok (.Success q :: codes))

/-- SubAck::assemble (suback.rs): advance past the fixed header, read the
big-endian pkid, then read remaining_len - 2 return-code bytes.  The Rust
subtraction `fixed_header.remaining_len - 2` is on usize and unguarded:
with remaining_len < 2 it underflows (a panic with overflow checks; with
wrapping the loop then reads past any real buffer), modelled as `none`. -/
def SubAck.assemble (fixed_header : FixedHeader) (bytes : Bytes) : Option (Except Error SubAck) :=
  match Bytes.advance fixed_header.header_len bytes with
  | none => none
  | some bytes =>
    match bytes.getU16 with
    | none => none
    | some (pkid, bytes) =>
      if fixed_header.remaining_len < 2 then none
      else
        let payload_bytes := fixed_header.remaining_len - 2
        match readReturnCodes payload_bytes bytes with
        | none => none
        | some (.error e) => some (.error e)
        | some (.ok return_codes) => some (.ok { pkid, return_codes })

/-- Acknowledgement to pubrec (pubrel.rs). -/
structure PubRel where
  pkid : Nat
  deriving DecidableEq, Repr

/-- PubRel::assemble (pubrel.rs): reject remaining_len ≠ 2 with
PayloadSizeIncorrect, otherwise advance past the fixed header and read the
big-endian pkid.  `none` models a panic reading past the buffer. -/
def PubRel.assemble (fixed_header : FixedHeader) (bytes : Bytes) : Option (Except Error PubRel) :=
  if fixed_header.remaining_len ≠ 2 then some (.error .PayloadSizeIncorrect)
  else
    match Bytes.advance fixed_header.header_len bytes with
    | none => none
    | some bytes =>
      match bytes.getU16 with
      | none => none
      | some (pkid, _) => some (.ok { pkid })

/-- The packet kinds whose decoders are among the provided sources. -/
inductive Packet where
  | SubAck (s : SubAck)
  | PubRel (p : PubRel)
  deriving DecidableEq, Repr

/-- Modelled from the spec: the remaining-length varint decoder — 7-bit
groups, little-endian, continuation bit in the MSB, at most 4 bytes
(values > 268,435,455 rejected).  Returns the value and the byte count.
The full fixed-header reader lives in the crate root, outside the
provided sources. -/
def decodeVarint (b : Bytes) : Option (Nat × Nat) :=
  match b with
  | b0 :: rest0 =>
    if b0 < 128 then some (b0, 1)
    else
      match rest0 with
      | b1 :: rest1 =>
        if b1 < 128 then some (b0 % 128 + 128 * b1, 2)
        else
          match rest1 with
          | b2 :: rest2 =>
            if b2 < 128 then some (b0 % 128 + 128 * (b1 % 128) + 16384 * b2, 3)
            else
              match rest2 with
              | b3 :: _ =>
                if b3 < 128 then
                  some (b0 % 128 + 128 * (b1 % 128) + 16384 * (b2 % 128) + 2097152 * b3, 4)
                else none
              | [] => none
          | [] => none
      | [] => none
  | [] => none

/-- Modelled from the spec: the remaining-length varint encoder, inverse of
`decodeVarint` for values below 2^28. -/
def encodeVarint (n : Nat) : Bytes :=
  if n < 128 then [n]
  else if n < 16384 then [n % 128 + 128, n / 128]
  else if n < 2097152 then [n % 128 + 128, n / 128 % 128 + 128, n / 16384]
  else [n % 128 + 128, n / 128 % 128 + 128, n / 16384 % 128 + 128, n / 2097152]

/-- Modelled from the spec: mqtt_read — parse the fixed header (type nibble
from the first byte, remaining-length varint; header_len = 1 + varint
width) and dispatch on the packet type (PUBREL=6, SUBACK=9); the reader
lives in the crate root, outside the provided sources.  The whole buffer,
fixed header included, is handed to the assemble function, as in the
source. -/
def mqttRead (bytes : Bytes) : Option (Except Error Packet) :=
  match bytes with
  | [] => some (.error .InsufficientBytes)
  | b0 :: rest =>
    match decodeVarint rest with
    | none => some (.error .MalformedRemainingLength)
    | some (remaining_len, lenBytes) =>
      let fixed_header : FixedHeader := ⟨1 + lenBytes, remaining_len⟩
      match b0 / 16 with
      | 6 => (PubRel.assemble fixed_header bytes).map (·.map Packet.PubRel)
      | 9 => (SubAck.assemble fixed_header bytes).map (·.map Packet.SubAck)
      | t => some (.error (.InvalidPacketType t))

/-- Modelled from the spec: wire form of a subscription return code — 0x80
for Failure, the QoS value for Success. -/
def encodeReturnCode : SubscribeReturnCodes → Nat
  | .Failure => 0x80
  | .Success q => q.toNat

/-- Modelled from the spec: the packet encoders (write side of the codec,
outside the provided sources).  PUBREL is type 6 with flags 0010 (first
byte 0x62) and remaining length 2; SUBACK is type 9 with flags 0 (first
byte 0x90), remaining length 2 + number of return codes. -/
def encodePacket : Packet → Bytes
  | .PubRel p => [0x62, 2, p.pkid / 256, p.pkid % 256]
  | .SubAck s =>
    0x90 :: encodeVarint (2 + s.return_codes.length) ++
      (s.pkid / 256 :: s.pkid % 256 :: s.return_codes.map encodeReturnCode)

/-- A packet is wire-valid when its packet id fits in a u16 and (for
SubAck) the remaining length is representable as a varint. -/
def Packet.valid : Packet → Prop
  | .PubRel p => p.pkid < 65536
  | .SubAck s => s.pkid < 65536 ∧ 2 + s.return_codes.length < 268435456

/-- The claim's words for one SubAck payload byte, stated independently of
the source loop for comparison: Failure when the top bit is set, otherwise
Success(byte & 0x03) with the masked value validated as a QoS. -/
def decodeReturnCodeSpec (b : Nat) : Except Error SubscribeReturnCodes :=
  if b.testBit 7 then .ok .Failure
  else (qos (b &&& 0x3)).map .Success

/-- The claim's words for the whole SubAck payload: decode the bytes in
order, propagating the first decoding error. -/
def decodePayloadSpec : List Nat → Except Error (List SubscribeReturnCodes)
  | [] => .ok []
  | b :: rest =>
    match decodeReturnCodeSpec b with
    | .error e => .error e
    | .ok code => (decodePayloadSpec rest).map (code :: ·)

end Mqtt4

namespace Rumqttlog

/-- Notification from router to connection (router/mod.rs).  The payloads
of the three variants (ConnectionAck, Data, Acks) are irrelevant to channel
and retry behaviour, so they are abstracted to a tag. -/
inductive RNotification where
  | ConnectionAck (tag : Nat)
  | Data (tag : Nat)
  | Acks (tag : Nat)
  deriving DecidableEq, Repr

/-- Modelled from the spec: a bounded channel sender (the jackiechan crate,
external to the repository).  The channel holds at most `capacity` queued
items and can be closed by the receiving side. -/
structure Chan where
  capacity : Nat
  queue : List RNotification
  closed : Bool
  deriving DecidableEq, Repr

/-- Modelled from the spec: try_send error — the undelivered item is handed
back inside the error, either because the channel is full or closed. -/
inductive TrySendError where
  | Full (n : RNotification)
  | Closed (n : RNotification)
  deriving DecidableEq, Repr

/-- Modelled from the spec: non-blocking try_send on a bounded channel:
fails with Closed when the receiver is gone, with Full when `capacity`
items are already queued, otherwise enqueues. -/
def Chan.trySend (c : Chan) (n : RNotification) : Except TrySendError Chan :=
  if c.closed then .error (.Closed n)
  else if c.capacity ≤ c.queue.length then .error (.Full n)
  else .ok { c with queue := c.queue ++ [n] }

/-- Kind of connection (router/mod.rs). -/
inductive ConnectionType where
  | Device (id : String)
  | Replicator (id : Nat)
  deriving DecidableEq, Repr

/-- A registered connection (router/mod.rs): its kind, the last failed
notification, and the sender handle towards the connection. -/
structure Connection where
  conn : ConnectionType
  last_failed : Option RNotification
  handle : Chan
  deriving DecidableEq, Repr

/-- Connection::notify (router/mod.rs): try_send the notification; on Full
or Closed park the returned notification in last_failed and report false;
on success report true. -/
def Connection.notify (c : Connection) (n : RNotification) : Connection × Bool :=
  match c.handle.trySend n with
  | .error (.Full e) => ({ c with last_failed := some e }, false)
  | .error (.Closed e) => ({ c with last_failed := some e }, false)
  | .ok h => ({ c with handle := h }, true)

/-- Connection::notify_last_failed (router/mod.rs): take the parked
notification, if any, and retry it through notify; an empty slot reports
true. -/
def Connection.notifyLastFailed (c : Connection) : Connection × Bool :=
  match c.last_failed with
  | some last_failed => Connection.notify { c with last_failed := none } last_failed
  | none => (c, true)

end Rumqttlog

namespace RumqClient

/-- The client state machine (state.rs, outside the provided sources) is
opaque to the event loop: the loop only threads it through the handlers.
It is abstracted to a tag. -/
abbrev MqttState := Nat

/-- MQTT packets as seen by the event loop (rumq_core, outside the
provided sources); payloads are abstracted to tags, only the packet kind
matters to the loop. -/
inductive CPacket where
  | Pingreq
  | Publish (tag : Nat)
  | Subscribe (tag : Nat)
  | Unsubscribe (tag : Nat)
  | Disconnect
  | Other (tag : Nat)
  deriving DecidableEq, Repr

/-- User requests convertible to packets by the From impl in eventloop.rs
(the remaining Request variants hit unimplemented! there and are omitted). -/
inductive Request where
  | Publish (tag : Nat)
  | Subscribe (tag : Nat)
  | Unsubscribe (tag : Nat)
  | Disconnect
  deriving DecidableEq, Repr

/-- impl From<Request> for Packet (eventloop.rs). -/
def Request.intoPacket : Request → CPacket
  | .Publish publish => .Publish publish
  | .Disconnect => .Disconnect
  | .Subscribe subscribe => .Subscribe subscribe
  | .Unsubscribe unsubscribe => .Unsubscribe unsubscribe

/-- EventLoopError (eventloop.rs); the wrapped errors are abstracted to
tags, except Elapsed which carries no information. -/
inductive EventLoopError where
  | MqttState (e : Nat)
  | Timeout
  | Rumq (e : Nat)
  | Network (e : Nat)
  deriving DecidableEq, Repr

/-- Modelled from the spec: the client Notification enum (lib.rs, outside
the provided sources) — StreamEnd carries the fatal error; all other
variants are abstracted to a tag. -/
inductive CNotification where
  | Notif (tag : Nat)
  | StreamEnd (e : EventLoopError)
  deriving DecidableEq, Repr

/-- One turn of the select loop in MqttEventLoop::stream, as the
environment resolves it: `Close` is a source returning None (loop breaks);
`Item` is an event whose handling by the state machine produced
`handled` (new state, optional notification to yield, optional reply
packet), and, when a reply packet is present, whose network write
produced `wrote`. -/
inductive LoopStep where
  | Close
  | Item (handled : Except Nat (MqttState × Option CNotification × Option CPacket))
      (wrote : Except Nat Unit)
  deriving DecidableEq, Repr

/-- The loop of MqttEventLoop::stream (eventloop.rs): on a handler error
yield StreamEnd and break; on a write error for the reply packet yield
StreamEnd and break; otherwise yield the notification, if any, and
continue.  Returns the yielded notifications and the final MqttState
(which the MqttEventLoop retains).  An exhausted step list cuts off the
observation of a still-running loop. -/
def streamRun (state : MqttState) : List LoopStep → List CNotification × MqttState
  | [] => ([], state)
  | .Close :: _ => ([], state)
  | .Item handled wrote :: rest =>
    match handled with
    | .error e => ([.StreamEnd (.MqttState e)], state)
    | .ok (state', n, outpacket) =>
      match outpacket with
      | some _ =>
        match wrote with
        | .error e => ([.StreamEnd (.Rumq e)], state')
        | .ok _ =>
          let (tail, final) := streamRun state' rest
          (n.toList ++ tail, final)
      | none =>
        let (tail, final) := streamRun state' rest
        (n.toList ++ tail, final)

/-- MqttEventLoop::stream (eventloop.rs): a failed initial connect yields
StreamEnd with that error and terminates; otherwise the select loop runs. -/
def stream (connectResult : Except EventLoopError Unit) (state : MqttState)
    (steps : List LoopStep) : List CNotification × MqttState :=
  match connectResult with
  | .error e => ([.StreamEnd e], state)
  | .ok _ => streamRun state steps

/-- A step that neither errors nor ends a source: the handler succeeded
and, when a reply packet was produced, so did the network write. -/
def LoopStep.isOk : LoopStep → Bool
  | .Item (.ok (_, _, some _)) (.ok _) => true
  | .Item (.ok (_, _, none)) _ => true
  | _ => false

/-- The notifications yielded by a run of ok steps. -/
def notifsOf : List LoopStep → List CNotification
  | [] => []
  | .Item (.ok (_, n, _)) _ :: rest => n.toList ++ notifsOf rest
  | _ :: rest => notifsOf rest

/-- The MqttState after a run of ok steps. -/
def stateAfter (state : MqttState) : List LoopStep → MqttState
  | [] => state
  | .Item (.ok (state', _, _)) _ :: rest => stateAfter state' rest
  | _ :: rest => stateAfter state rest

/-- network_stream (eventloop.rs) adds one second to the keep alive before
using it as the read timeout. -/
def netKeepAlive (keep_alive : Nat) : Nat := keep_alive + 1

/-- One network read attempt as the environment resolves it: `Quiet` means
no packet arrived within the timeout window; `Arrive delay result` means
the read completed after `delay` seconds with a packet or a read error. -/
inductive NetRead where
  | Quiet
  | Arrive (delay : Nat) (result : Except Nat CPacket)
  deriving DecidableEq, Repr

/-- network_stream (eventloop.rs), with timestamps: a timed-out read
yields Pingreq exactly keep_alive + 1 seconds after the previous event and
continues; an arriving packet is yielded at its arrival time; a read error
ends the stream. -/
def networkStream (keep_alive : Nat) (now : Nat) : List NetRead → List (Nat × CPacket)
  | [] => []
  | .Quiet :: rest =>
    (now + netKeepAlive keep_alive, .Pingreq) ::
      networkStream keep_alive (now + netKeepAlive keep_alive) rest
  | .Arrive delay (.ok p) :: rest => (now + delay, p) :: networkStream keep_alive (now + delay) rest
  | .Arrive _ (.error _) :: _ => []

/-- One poll of the (throttled) request source as the environment resolves
it: `Quiet` means no request within keep_alive seconds; `Next delay r`
means the source produced `r` after `delay` seconds (the throttle delay is
part of `delay`), where `none` is the end of the source. -/
inductive ReqRead where
  | Quiet
  | Next (delay : Nat) (request : Option Request)
  deriving DecidableEq, Repr

/-- The end of the request source (requests.next() returned None). -/
def ReqRead.isEnd : ReqRead → Bool
  | .Next _ none => true
  | _ => false

/-- request_stream (eventloop.rs), with timestamps: a timed-out poll
yields Pingreq exactly keep_alive seconds after the previous event and
keeps waiting; a request is converted and yielded at its arrival time; an
ended source breaks the loop. -/
def requestStream (keep_alive : Nat) (now : Nat) : List ReqRead → List (Nat × CPacket)
  | [] => []
  | .Quiet :: rest =>
    (now + keep_alive, .Pingreq) :: requestStream keep_alive (now + keep_alive) rest
  | .Next delay (some r) :: rest =>
    (now + delay, r.intoPacket) :: requestStream keep_alive (now + delay) rest
  | .Next _ none :: _ => []

/-- The timeout MqttEventLoop::connect wraps around each awaited step. -/
def connectTimeout : Nat := 5

/-- The environment of one connect() call: for each awaited step, the time
the underlying future needs to complete (`none` = it never completes, e.g.
a black-hole endpoint) and its result once complete. -/
structure ConnectEnv where
  network_connect_time : Option Nat
  network_connect_result : Except EventLoopError Unit
  mqtt_write_time : Option Nat
  mqtt_write_result : Except EventLoopError Unit
  connack_time : Option Nat
  connack_result : Except EventLoopError Unit
  deriving DecidableEq, Repr

/-- time::timeout(limit, step): if the future completes within the limit
its result stands and that much time elapses; otherwise Elapsed converts
into EventLoopError::Timeout after exactly `limit` seconds. -/
def timeoutStep (limit : Nat) (time : Option Nat) (result : Except EventLoopError Unit) :
    Except EventLoopError Unit × Nat :=
  match time with
  | none => (.error .Timeout, limit)
  | some d => if limit < d then (.error .Timeout, limit) else (result, d)

/-- MqttEventLoop::connect (eventloop.rs): network_connect (TCP or TLS,
one 5s timeout), then mqtt_connect = write the Connect packet (5s timeout)
and read/validate the ConnAck (5s timeout); each ?? propagates both the
timeout and the inner error.  Returns the result and the elapsed time. -/
def connect (env : ConnectEnv) : Except EventLoopError Unit × Nat :=
  let (r1, t1) := timeoutStep connectTimeout env.network_connect_time env.network_connect_result
  match r1 with
  | .error e => (.error e, t1)
  | .ok _ =>
    let (r2, t2) := timeoutStep connectTimeout env.mqtt_write_time env.mqtt_write_result
    match r2 with
    | .error e => (.error e, t1 + t2)
    | .ok _ =>
      let (r3, t3) := timeoutStep connectTimeout env.connack_time env.connack_result
      match r3 with
      | .error e => (.error e, t1 + t2 + t3)
      | .ok _ => (.ok (), t1 + t2 + t3)

end RumqClient

open Mqtt4 Rumqttlog RumqClient

section CodecLemmas

set_option maxRecDepth 4096 in
/-- For byte values, the source's top-bit test agrees with testBit 7. -/
theorem byte_shift_eq_testBit : ∀ b < 256, (b >>> 7 == 1) = b.testBit 7 := by decide

set_option maxRecDepth 4096 in
/-- For byte values, masking with 0x3 is reduction mod 4. -/
theorem byte_and_three : ∀ b < 256, b &&& 0x3 = b % 4 := by decide

/-- The return-code loop of SubAck::assemble, run on exactly the payload
bytes (with arbitrary trailing bytes), never panics and computes the
spec-side payload decode. -/
theorem readReturnCodes_spec (payload rest : Bytes) (hb : ∀ b ∈ payload, b < 256) :
    readReturnCodes payload.length (payload ++ rest) = some (decodePayloadSpec payload) := by
  induction payload with
  | nil => rfl
  | cons b tail ih =>
    have hb' : b < 256 := hb b (by simp)
    have htail : ∀ x ∈ tail, x < 256 := fun x hx => hb x (by simp [hx])
    have hih := ih htail
    simp only [List.length_cons, List.cons_append, readReturnCodes, Bytes.getU8]
    rw [byte_shift_eq_testBit b hb']
    by_cases ht : b.testBit 7
    · simp only [ht, if_pos, hih]
      cases hsp : decodePayloadSpec tail <;>
        simp [decodePayloadSpec, decodeReturnCodeSpec, ht, hsp, Except.map]
    · simp only [ht, if_neg, Bool.false_eq_true]
      cases hq : qos (b &&& 0x3) with
      | error e => simp [decodePayloadSpec, decodeReturnCodeSpec, ht, hq, Except.map]
      | ok q =>
        simp only [hih]
        cases hsp : decodePayloadSpec tail <;>
          simp [decodePayloadSpec, decodeReturnCodeSpec, ht, hq, hsp, Except.map]

/-- A successful spec-side payload decode yields one return code per
payload byte. -/
theorem decodePayloadSpec_length (payload : Bytes) (codes : List SubscribeReturnCodes)
    (h : decodePayloadSpec payload = .ok codes) : codes.length = payload.length := by
  induction payload generalizing codes with
  | nil =>
    simp only [decodePayloadSpec, Except.ok.injEq] at h
    simp [← h]
  | cons b tail ih =>
    simp only [decodePayloadSpec] at h
    cases hc : decodeReturnCodeSpec b <;> rw [hc] at h
    · exact absurd h (by simp)
    · cases hsp : decodePayloadSpec tail <;> rw [hsp] at h <;>
        simp only [Except.map, Except.ok.injEq] at h
      · exact absurd h (by simp)
      · simp [← h, ih _ hsp]

/-- SubAck::assemble on a well-shaped buffer: big-endian pkid after the
header, payload decoded per the spec-side decode. -/
theorem suback_assemble_eq (hl rl : Nat) (pre payload rest : Bytes) (hi lo : Nat)
    (hpre : pre.length = hl) (hpay : payload.length = rl - 2) (h2 : 2 ≤ rl)
    (hb : ∀ b ∈ payload, b < 256) :
    SubAck.assemble ⟨hl, rl⟩ (pre ++ hi :: lo :: (payload ++ rest)) =
      some ((decodePayloadSpec payload).map fun codes =>
        { pkid := hi * 256 + lo, return_codes := codes }) := by
  have hadv : Bytes.advance hl (pre ++ hi :: lo :: (payload ++ rest)) =
      some (hi :: lo :: (payload ++ rest)) := by
    subst hpre
    simp [Bytes.advance, List.drop_left]
  simp only [SubAck.assemble, hadv, Bytes.getU16]
  rw [if_neg (by omega)]
  rw [show rl - 2 = payload.length by omega]
  rw [readReturnCodes_spec payload rest hb]
  cases hsp : decodePayloadSpec payload <;> simp [Except.map]

end CodecLemmas

section TotalityLemmas

/-- The return-code loop never panics when the buffer holds at least as
many bytes as the loop will read. -/
theorem readReturnCodes_ne_none (n : Nat) (b : Bytes) (h : n ≤ b.length) :
    readReturnCodes n b ≠ none := by
  induction n generalizing b with
  | zero => simp [readReturnCodes]
  | succ m ih =>
    match b with
    | [] => simp at h
    | x :: xs =>
      have hx : m ≤ xs.length := by simpa using h
      simp only [readReturnCodes, Bytes.getU8]
      by_cases ht : (x >>> 7 == 1) = true
      · simp only [ht, if_pos]
        cases hrc : readReturnCodes m xs with
        | none => exact absurd hrc (ih xs hx)
        | some r => cases r <;> simp
      · simp only [ht, if_neg, Bool.false_eq_true]
        cases hq : qos (x &&& 0x3) with
        | error e => simp
        | ok q =>
          cases hrc : readReturnCodes m xs with
          | none => exact absurd hrc (ih xs hx)
          | some r => cases r <;> simp

/-- SubAck::assemble never panics when remaining_len ≥ 2 and the buffer
holds at least header_len + remaining_len bytes. -/
theorem suback_assemble_total (fh : FixedHeader) (b : Bytes)
    (h2 : 2 ≤ fh.remaining_len) (hlen : fh.header_len + fh.remaining_len ≤ b.length) :
    SubAck.assemble fh b ≠ none := by
  have hadv : Bytes.advance fh.header_len b = some (b.drop fh.header_len) := by
    simp only [Bytes.advance, if_pos (by omega : fh.header_len ≤ b.length)]
  have hdl : (b.drop fh.header_len).length = b.length - fh.header_len := by
    simp [List.length_drop]
  match hdrop : b.drop fh.header_len with
  | [] => rw [hdrop] at hdl; simp at hdl; omega
  | [x] => rw [hdrop] at hdl; simp at hdl; omega
  | hi :: lo :: rest =>
    have hrest : fh.remaining_len - 2 ≤ rest.length := by
      rw [hdrop] at hdl; simp at hdl; omega
    simp only [SubAck.assemble, hadv, hdrop, Bytes.getU16]
    rw [if_neg (by omega)]
    cases hrc : readReturnCodes (fh.remaining_len - 2) rest with
    | none => exact absurd hrc (readReturnCodes_ne_none _ _ hrest)
    | some r => cases r <;> simp

/-- SubAck::assemble always panics when remaining_len < 2: if the header
advance and the pkid read survive the buffer, the unguarded usize
subtraction remaining_len - 2 underflows. -/
theorem suback_assemble_underflow (fh : FixedHeader) (b : Bytes)
    (h : fh.remaining_len < 2) : SubAck.assemble fh b = none := by
  simp only [SubAck.assemble]
  cases hadv : Bytes.advance fh.header_len b with
  | none => rfl
  | some b2 =>
    cases hget : b2.getU16 with
    | none => simp [hget]
    | some p => simp [hget, if_pos h]

end TotalityLemmas

/-- C1: every SubAck decoded by SubAck::assemble has its pkid equal to the
big-endian u16 following the fixed header, exactly remaining_len - 2 return
codes, and each payload byte decoding to Failure when its top bit is set,
otherwise Success(byte & 0x03) with the masked value validated as a QoS
(decoding errors otherwise); and the bytes [0x90, 4, 0x00, 0x0F, 0x01,
0x80] decode to SubAck with pkid 15 and codes [Success(QoS 1), Failure]. -/
theorem C1_suback_assemble_decode :
    (∀ (hl rl : Nat) (pre payload rest : Bytes) (hi lo : Nat),
      pre.length = hl → payload.length = rl - 2 → 2 ≤ rl → (∀ b ∈ payload, b < 256) →
      SubAck.assemble ⟨hl, rl⟩ (pre ++ hi :: lo :: (payload ++ rest)) =
        some ((decodePayloadSpec payload).map fun codes =>
          { pkid := hi * 256 + lo, return_codes := codes }) ∧
      ∀ codes, decodePayloadSpec payload = .ok codes → codes.length = rl - 2) ∧
    mqttRead [0x90, 4, 0x00, 0x0F, 0x01, 0x80] =
      some (.ok (.SubAck { pkid := 15, return_codes := [.Success .AtLeastOnce, .Failure] })) := by
  constructor
  · intro hl rl pre payload rest hi lo hpre hpay h2 hb
    refine ⟨suback_assemble_eq hl rl pre payload rest hi lo hpre hpay h2 hb, ?_⟩
    intro codes hc
    rw [decodePayloadSpec_length payload codes hc, hpay]
  · decide

/-- Witness for C1 at the spec's concrete example packet. -/
theorem C1_suback_assemble_decode_witness :
    (SubAck.assemble ⟨2, 4⟩ ([0x90, 4] ++ 0x00 :: 0x0F :: ([0x01, 0x80] ++ [])) =
      some ((decodePayloadSpec [0x01, 0x80]).map fun codes =>
        { pkid := 0x00 * 256 + 0x0F, return_codes := codes }) ∧
     ∀ codes, decodePayloadSpec [0x01, 0x80] = .ok codes → codes.length = 4 - 2) :=
  C1_suback_assemble_decode.1 2 4 [0x90, 4] [0x01, 0x80] [] 0x00 0x0F rfl rfl
    (by decide) (by decide)

/-- C2: PubRel::assemble returns an error iff the fixed header's
remaining_len is not 2; with remaining_len 2 the pkid is the big-endian
u16 immediately after the fixed header; the bytes [0x62, 2, 0x00, 0x0A]
decode to PubRel with pkid 10. -/
theorem C2_pubrel_assemble :
    (∀ (fh : FixedHeader) (b : Bytes),
      (∃ e, PubRel.assemble fh b = some (.error e)) ↔ fh.remaining_len ≠ 2) ∧
    (∀ (hl : Nat) (pre rest : Bytes) (hi lo : Nat), pre.length = hl →
      PubRel.assemble ⟨hl, 2⟩ (pre ++ hi :: lo :: rest) = some (.ok { pkid := hi * 256 + lo })) ∧
    mqttRead [0x62, 2, 0x00, 0x0A] = some (.ok (.PubRel { pkid := 10 })) := by
  refine ⟨?_, ?_, by decide⟩
  · intro fh b
    constructor
    · rintro ⟨e, he⟩
      intro hrl
      simp only [PubRel.assemble] at he
      rw [if_neg (by simp [hrl])] at he
      cases hadv : Bytes.advance fh.header_len b with
      | none => rw [hadv] at he; simp at he
      | some b2 =>
        rw [hadv] at he
        cases hget : b2.getU16 with
        | none => simp [hget] at he
        | some p =>
          obtain ⟨pk, r⟩ := p
          simp [hget] at he
    · intro hrl
      exact ⟨.PayloadSizeIncorrect, by simp [PubRel.assemble, hrl]⟩
  · intro hl pre rest hi lo hpre
    have hadv : Bytes.advance hl (pre ++ hi :: lo :: rest) = some (hi :: lo :: rest) := by
      subst hpre
      simp [Bytes.advance, List.drop_left]
    simp [PubRel.assemble, hadv, Bytes.getU16]

/-- Witness for C2 at the spec's concrete example packet and at a frame
with a wrong remaining length. -/
theorem C2_pubrel_assemble_witness :
    PubRel.assemble ⟨2, 2⟩ ([0x62, 2] ++ 0x00 :: 0x0A :: []) =
      some (.ok { pkid := 0x00 * 256 + 0x0A }) ∧
    ((∃ e, PubRel.assemble ⟨0, 3⟩ [] = some (.error e)) ↔
      (⟨0, 3⟩ : FixedHeader).remaining_len ≠ 2) :=
  ⟨C2_pubrel_assemble.2.1 2 [0x62, 2] [] 0x00 0x0A rfl,
   C2_pubrel_assemble.1 ⟨0, 3⟩ []⟩

/-- C9 is false as stated: SubAck::assemble can also return without
panicking on a buffer shorter than header_len + remaining_len, because an
invalid QoS byte makes the loop return an error before exhausting the
declared payload; here remaining_len = 10 with a 3-byte buffer. -/
theorem C9_counterexample :
    SubAck.assemble ⟨0, 10⟩ [0x00, 0x00, 0x03] ≠ none ∧
    ¬ (2 ≤ (10 : Nat) ∧ 0 + 10 ≤ ([0x00, 0x00, 0x03] : Bytes).length) := by decide

/-- C9 (amended): the precondition remaining_len ≥ 2 together with at
least header_len + remaining_len buffered bytes is sufficient for
SubAck::assemble to return without panicking, and the unguarded
subtraction makes every input with remaining_len < 2 panic; but the
precondition is not necessary, since an invalid-QoS byte can cause an
early error return on a short buffer. -/
theorem C9_suback_assemble_safety :
    (∀ (fh : FixedHeader) (b : Bytes), 2 ≤ fh.remaining_len →
      fh.header_len + fh.remaining_len ≤ b.length → SubAck.assemble fh b ≠ none) ∧
    (∀ (fh : FixedHeader) (b : Bytes), fh.remaining_len < 2 → SubAck.assemble fh b = none) :=
  ⟨fun fh b h2 hlen => suback_assemble_total fh b h2 hlen,
   fun fh b h => suback_assemble_underflow fh b h⟩

/-- Witness for C9: a well-formed SubAck frame assembles without panic; a
frame with remaining_len 1 panics. -/
theorem C9_suback_assemble_safety_witness :
    SubAck.assemble ⟨2, 4⟩ [0x90, 4, 0x00, 0x0F, 0x01, 0x80] ≠ none ∧
    SubAck.assemble ⟨2, 1⟩ [0x90, 1, 0x00] = none :=
  ⟨C9_suback_assemble_safety.1 ⟨2, 4⟩ _ (by decide) (by decide),
   C9_suback_assemble_safety.2 ⟨2, 1⟩ _ (by decide)⟩

section RoundTripLemmas

/-- The varint decoder inverts the varint encoder on representable
remaining lengths, whatever bytes follow. -/
theorem decodeVarint_encodeVarint (n : Nat) (h : n < 268435456) (rest : Bytes) :
    decodeVarint (encodeVarint n ++ rest) = some (n, (encodeVarint n).length) := by
  by_cases h1 : n < 128
  · simp only [encodeVarint, if_pos h1, List.cons_append, List.nil_append]
    simp [decodeVarint, h1]
  · by_cases h2 : n < 16384
    · simp only [encodeVarint, if_neg h1, if_pos h2, List.cons_append, List.nil_append]
      simp only [decodeVarint]
      rw [if_neg (by omega), if_pos (by omega)]
      simp only [Option.some.injEq, Prod.mk.injEq, List.length_cons, List.length_nil]
      exact ⟨by omega, by trivial⟩
    · by_cases h3 : n < 2097152
      · simp only [encodeVarint, if_neg h1, if_neg h2, if_pos h3, List.cons_append,
          List.nil_append]
        simp only [decodeVarint]
        rw [if_neg (by omega), if_neg (by omega), if_pos (by omega)]
        simp only [Option.some.injEq, Prod.mk.injEq, List.length_cons, List.length_nil]
        exact ⟨by omega, by trivial⟩
      · simp only [encodeVarint, if_neg h1, if_neg h2, if_neg h3, List.cons_append,
          List.nil_append]
        simp only [decodeVarint]
        rw [if_neg (by omega), if_neg (by omega), if_neg (by omega), if_pos (by omega)]
        simp only [Option.some.injEq, Prod.mk.injEq, List.length_cons, List.length_nil]
        exact ⟨by omega, by trivial⟩

/-- The return-code loop inverts the return-code encoder. -/
theorem readReturnCodes_encode (codes : List SubscribeReturnCodes) (rest : Bytes) :
    readReturnCodes codes.length (codes.map encodeReturnCode ++ rest) = some (.ok codes) := by
  induction codes with
  | nil => rfl
  | cons c tail ih =>
    cases c with
    | Failure =>
      simp only [List.map_cons, List.length_cons, List.cons_append, readReturnCodes,
        Bytes.getU8, encodeReturnCode]
      rw [show ((0x80 : Nat) >>> 7 == 1) = true from rfl, if_pos rfl]
      rw [ih]
    | Success q =>
      cases q <;>
        simp [readReturnCodes, Bytes.getU8, encodeReturnCode, QoS.toNat, qos, ih]

/-- Reading a frame whose first byte is 0x90 dispatches to SubAck::assemble
with the decoded remaining length. -/
theorem mqttRead_suback_dispatch (bs : Bytes) (m k : Nat) (hd : decodeVarint bs = some (m, k)) :
    mqttRead ((0x90 : Nat) :: bs) =
      (SubAck.assemble ⟨1 + k, m⟩ ((0x90 : Nat) :: bs)).map (·.map Packet.SubAck) := by
  simp only [mqttRead, hd]

end RoundTripLemmas

/-- C3: decoding the encoding of a valid packet (PubRel or SubAck, the
kinds whose decoders are in the sources) yields the packet again, and
PubRel with pkid 10 encodes to exactly [0x62, 2, 0x00, 0x0A]. -/
theorem C3_codec_roundtrip :
    (∀ p : Packet, p.valid → mqttRead (encodePacket p) = some (.ok p)) ∧
    encodePacket (.PubRel { pkid := 10 }) = [0x62, 2, 0x00, 0x0A] := by
  refine ⟨?_, by decide⟩
  intro p hv
  cases p with
  | PubRel pr =>
    obtain ⟨pkid⟩ := pr
    have h1 : mqttRead (encodePacket (.PubRel ⟨pkid⟩)) =
        some (.ok (.PubRel ⟨pkid / 256 * 256 + pkid % 256⟩)) := rfl
    rw [h1, show pkid / 256 * 256 + pkid % 256 = pkid by omega]
  | SubAck s =>
    obtain ⟨pkid, codes⟩ := s
    obtain ⟨hpk, hlen⟩ := hv
    have hshape : encodePacket (.SubAck ⟨pkid, codes⟩) =
        (0x90 : Nat) :: (encodeVarint (2 + codes.length) ++
          (pkid / 256 :: pkid % 256 :: codes.map encodeReturnCode)) := by
      simp [encodePacket]
    have hdec := decodeVarint_encodeVarint (2 + codes.length) hlen
      (pkid / 256 :: pkid % 256 :: codes.map encodeReturnCode)
    rw [hshape, mqttRead_suback_dispatch _ _ _ hdec]
    simp only [SubAck.assemble]
    have hadv : Bytes.advance (1 + (encodeVarint (2 + codes.length)).length)
        ((0x90 : Nat) :: (encodeVarint (2 + codes.length) ++
          (pkid / 256 :: pkid % 256 :: codes.map encodeReturnCode))) =
        some (pkid / 256 :: pkid % 256 :: codes.map encodeReturnCode) := by
      simp only [Bytes.advance, List.length_cons, List.length_append]
      rw [if_pos (by simp [List.length_cons]; omega)]
      rw [show (1 + (encodeVarint (2 + codes.length)).length) =
        ((0x90 : Nat) :: encodeVarint (2 + codes.length)).length by simp [Nat.add_comm]]
      rw [show (0x90 : Nat) :: (encodeVarint (2 + codes.length) ++
          (pkid / 256 :: pkid % 256 :: codes.map encodeReturnCode)) =
        ((0x90 : Nat) :: encodeVarint (2 + codes.length)) ++
          (pkid / 256 :: pkid % 256 :: codes.map encodeReturnCode) by simp]
      rw [List.drop_left]
    rw [hadv]
    simp only [Bytes.getU16]
    rw [if_neg (by omega)]
    rw [show 2 + codes.length - 2 = codes.length by omega]
    rw [show codes.map encodeReturnCode = codes.map encodeReturnCode ++ [] by simp]
    rw [readReturnCodes_encode]
    rw [show pkid / 256 * 256 + pkid % 256 = pkid by omega]
    rfl

/-- Witness for C3 at PubRel with pkid 10. -/
theorem C3_codec_roundtrip_witness :
    mqttRead (encodePacket (.PubRel { pkid := 10 })) = some (.ok (.PubRel { pkid := 10 })) :=
  C3_codec_roundtrip.1 (.PubRel { pkid := 10 }) (by simp [Packet.valid])

/-- C4: Connection::notify on a full outbound channel parks the
undelivered notification in last_failed (nothing is dropped: the channel
is untouched and the notification is retained) and returns false; once
the channel has room again — the connection signalled Ready —
notify_last_failed delivers exactly the parked notification and empties
the slot.  The slot is an Option, so it holds at most one parked
notification at any time. -/
theorem C4_notify_backpressure :
    (∀ (c : Connection) (n : RNotification),
      c.handle.closed = false → c.handle.capacity ≤ c.handle.queue.length →
      Connection.notify c n = ({ c with last_failed := some n }, false)) ∧
    (∀ (c : Connection) (n : RNotification),
      c.last_failed = some n → c.handle.closed = false →
      c.handle.queue.length < c.handle.capacity →
      Connection.notifyLastFailed c =
        ({ c with
            last_failed := none
            handle := { c.handle with queue := c.handle.queue ++ [n] } }, true)) := by
  constructor
  · intro c n hcl hfull
    simp [Connection.notify, Chan.trySend, hcl, hfull]
  · intro c n hlf hcl hroom
    have hns : Chan.trySend c.handle n =
        .ok { c.handle with queue := c.handle.queue ++ [n] } := by
      unfold Chan.trySend
      rw [if_neg (by rw [hcl]; simp)]
      rw [if_neg (by omega)]
    simp only [Connection.notifyLastFailed, hlf, Connection.notify]
    simp [hns]

/-- Witness for C4: a capacity-1 channel already holding one notification
parks the next one; after the queue drains, the retry delivers it. -/
theorem C4_notify_backpressure_witness :
    Connection.notify ⟨.Device "c1", none, ⟨1, [.Data 0], false⟩⟩ (.Data 1) =
      ({ conn := .Device "c1"
         last_failed := some (.Data 1)
         handle := ⟨1, [.Data 0], false⟩ }, false) ∧
    Connection.notifyLastFailed ⟨.Device "c1", some (.Data 1), ⟨1, [], false⟩⟩ =
      ({ conn := .Device "c1"
         last_failed := none
         handle := ⟨1, [.Data 1], false⟩ }, true) :=
  ⟨C4_notify_backpressure.1 ⟨.Device "c1", none, ⟨1, [.Data 0], false⟩⟩ (.Data 1)
      rfl (by decide),
   C4_notify_backpressure.2 ⟨.Device "c1", some (.Data 1), ⟨1, [], false⟩⟩ (.Data 1)
      rfl rfl (by decide)⟩

/-- C10: Connection::notify parks the notification and returns false on a
closed channel exactly as on a full one, and notify_last_failed with an
empty slot returns true leaving the connection untouched. -/
theorem C10_notify_closed :
    (∀ (c : Connection) (n : RNotification), c.handle.closed = true →
      Connection.notify c n = ({ c with last_failed := some n }, false)) ∧
    (∀ (c : Connection) (n : RNotification),
      c.handle.closed = false → c.handle.capacity ≤ c.handle.queue.length →
      Connection.notify c n = ({ c with last_failed := some n }, false)) ∧
    (∀ c : Connection, c.last_failed = none → Connection.notifyLastFailed c = (c, true)) := by
  refine ⟨?_, ?_, ?_⟩
  · intro c n hcl
    simp [Connection.notify, Chan.trySend, hcl]
  · intro c n hcl hfull
    simp [Connection.notify, Chan.trySend, hcl, hfull]
  · intro c hlf
    simp [Connection.notifyLastFailed, hlf]

/-- Witness for C10: a closed channel parks the notification; an empty
slot retries as a no-op. -/
theorem C10_notify_closed_witness :
    Connection.notify ⟨.Device "c2", none, ⟨4, [], true⟩⟩ (.Acks 2) =
      ({ conn := .Device "c2"
         last_failed := some (.Acks 2)
         handle := ⟨4, [], true⟩ }, false) ∧
    Connection.notifyLastFailed ⟨.Device "c2", none, ⟨4, [], false⟩⟩ =
      (⟨.Device "c2", none, ⟨4, [], false⟩⟩, true) :=
  ⟨C10_notify_closed.1 ⟨.Device "c2", none, ⟨4, [], true⟩⟩ (.Acks 2) rfl,
   C10_notify_closed.2.2 ⟨.Device "c2", none, ⟨4, [], false⟩⟩ rfl⟩

section EventLoopLemmas

/-- Running the select loop over a prefix of non-erroring steps yields the
prefix's notifications and threads the state, then continues with the
remaining steps. -/
theorem streamRun_append_ok (pre : List LoopStep) (s0 : MqttState) (tail : List LoopStep)
    (h : ∀ s ∈ pre, s.isOk = true) :
    streamRun s0 (pre ++ tail) =
      (notifsOf pre ++ (streamRun (stateAfter s0 pre) tail).1,
       (streamRun (stateAfter s0 pre) tail).2) := by
  induction pre generalizing s0 with
  | nil => simp [notifsOf, stateAfter]
  | cons st pre ih =>
    have hst : st.isOk = true := h st (by simp)
    have hpre : ∀ s ∈ pre, s.isOk = true := fun s hs => h s (by simp [hs])
    rcases st with _ | ⟨handled, wrote⟩
    · simp [LoopStep.isOk] at hst
    · rcases handled with e | ⟨s', n, p⟩
      · simp [LoopStep.isOk] at hst
      · rcases p with _ | p
        · simp only [List.cons_append, streamRun, List.append_eq]
          rw [ih s' hpre]
          simp [notifsOf, stateAfter]
        · rcases wrote with e | u
          · simp [LoopStep.isOk] at hst
          · simp only [List.cons_append, streamRun, List.append_eq]
            rw [ih s' hpre]
            simp [notifsOf, stateAfter]

end EventLoopLemmas

/-- C5: every fatal error in the event loop stream — a failed initial
connect, a state-machine error handling an incoming packet or request, or
an error writing the reply packet — makes the stream yield StreamEnd with
that error as its final item and terminate, while the final MqttState is
the one threaded through the successfully handled steps (retained by the
MqttEventLoop for reconnection). -/
theorem C5_stream_error_propagation :
    (∀ (s0 : MqttState) (steps : List LoopStep) (e : EventLoopError),
      stream (.error e) s0 steps = ([.StreamEnd e], s0)) ∧
    (∀ (s0 : MqttState) (pre : List LoopStep) (e : Nat) (w : Except Nat Unit)
        (rest : List LoopStep), (∀ s ∈ pre, s.isOk = true) →
      stream (.ok ()) s0 (pre ++ .Item (.error e) w :: rest) =
        (notifsOf pre ++ [.StreamEnd (.MqttState e)], stateAfter s0 pre)) ∧
    (∀ (s0 : MqttState) (pre : List LoopStep) (s' : MqttState)
        (n : Option CNotification) (p : CPacket) (e : Nat) (rest : List LoopStep),
      (∀ s ∈ pre, s.isOk = true) →
      stream (.ok ()) s0 (pre ++ .Item (.ok (s', n, some p)) (.error e) :: rest) =
        (notifsOf pre ++ [.StreamEnd (.Rumq e)], s')) := by
  refine ⟨fun s0 steps e => rfl, ?_, ?_⟩
  · intro s0 pre e w rest h
    show streamRun s0 (pre ++ .Item (.error e) w :: rest) = _
    rw [streamRun_append_ok pre s0 _ h]
    simp [streamRun]
  · intro s0 pre s' n p e rest h
    show streamRun s0 (pre ++ .Item (.ok (s', n, some p)) (.error e) :: rest) = _
    rw [streamRun_append_ok pre s0 _ h]
    simp [streamRun]

/-- Witness for C5: one successfully handled publish notification, then a
state-machine error; the stream yields the notification, then StreamEnd,
and keeps the updated state 1. -/
theorem C5_stream_error_propagation_witness :
    stream (.ok ()) 0 ([.Item (.ok (1, some (.Notif 7), none)) (.ok ())] ++
        .Item (.error 3) (.ok ()) :: []) =
      (notifsOf [.Item (.ok (1, some (.Notif 7), none)) (.ok ())] ++
        [.StreamEnd (.MqttState 3)],
       stateAfter 0 [.Item (.ok (1, some (.Notif 7), none)) (.ok ())]) :=
  C5_stream_error_propagation.2.1 0 [.Item (.ok (1, some (.Notif 7), none)) (.ok ())]
    3 (.ok ()) [] (by decide)

section TimedStreamLemmas

/-- Closed form of the network stream on a trace with no incoming packets:
one Pingreq every keep_alive + 1 seconds. -/
theorem networkStream_replicate (ka : Nat) : ∀ (n now : Nat),
    networkStream ka now (List.replicate n .Quiet) =
      (List.range n).map fun i => (now + (i + 1) * (ka + 1), CPacket.Pingreq) := by
  intro n
  induction n with
  | zero => intro now; simp [networkStream]
  | succ m ih =>
    intro now
    simp only [List.replicate_succ, networkStream, netKeepAlive]
    rw [ih (now + (ka + 1))]
    rw [List.range_succ_eq_map]
    simp only [List.map_cons, List.map_map]
    congr 1
    · simp
    · refine List.map_congr_left fun i hi => ?_
      simp only [Function.comp_apply, Nat.succ_eq_add_one, Prod.mk.injEq]
      exact ⟨by ring, trivial⟩

/-- Closed form of the request stream on a trace with no user requests:
one Pingreq every keep_alive seconds. -/
theorem requestStream_replicate (ka : Nat) : ∀ (n now : Nat),
    requestStream ka now (List.replicate n .Quiet) =
      (List.range n).map fun i => (now + (i + 1) * ka, CPacket.Pingreq) := by
  intro n
  induction n with
  | zero => intro now; simp [requestStream]
  | succ m ih =>
    intro now
    simp only [List.replicate_succ, requestStream]
    rw [ih (now + ka)]
    rw [List.range_succ_eq_map]
    simp only [List.map_cons, List.map_map]
    congr 1
    · simp
    · refine List.map_congr_left fun i hi => ?_
      simp only [Function.comp_apply, Nat.succ_eq_add_one, Prod.mk.injEq]
      exact ⟨by ring, trivial⟩

/-- The request stream never ends on a trace in which the request source
never ends: it yields one packet per poll. -/
theorem requestStream_length (ka : Nat) : ∀ (trace : List ReqRead) (now : Nat),
    (∀ r ∈ trace, r.isEnd = false) →
    (requestStream ka now trace).length = trace.length := by
  intro trace
  induction trace with
  | nil => intro now h; rfl
  | cons r rest ih =>
    intro now h
    have hr : r.isEnd = false := h r (by simp)
    have hrest : ∀ x ∈ rest, x.isEnd = false := fun x hx => h x (by simp [hx])
    rcases r with _ | ⟨d, req⟩
    · simp only [requestStream, List.length_cons]
      rw [ih _ hrest]
    · rcases req with _ | req
      · simp [ReqRead.isEnd] at hr
      · simp only [requestStream, List.length_cons]
        rw [ih _ hrest]

end TimedStreamLemmas

/-- C6: the network stream's read timeout is exactly keep_alive + 1
seconds — a window with no incoming packet yields Pingreq exactly
keep_alive + 1 seconds after the previous event and the stream continues;
with no incoming packets at all the pings come at (i+1)(K+1), the first at
K+1 seconds. -/
theorem C6_network_stream_ping :
    (∀ (ka now : Nat) (rest : List NetRead),
      networkStream ka now (.Quiet :: rest) =
        (now + (ka + 1), .Pingreq) :: networkStream ka (now + (ka + 1)) rest) ∧
    (∀ ka n : Nat, networkStream ka 0 (List.replicate n .Quiet) =
      (List.range n).map fun i => ((i + 1) * (ka + 1), CPacket.Pingreq)) ∧
    (∀ (ka : Nat) (rest : List NetRead),
      (networkStream ka 0 (.Quiet :: rest)).head? = some (ka + 1, .Pingreq)) := by
  refine ⟨?_, ?_, ?_⟩
  · intro ka now rest
    simp [networkStream, netKeepAlive]
  · intro ka n
    rw [networkStream_replicate]
    simp
  · intro ka rest
    simp [networkStream, netKeepAlive]

/-- C7: a poll window with no user request yields Pingreq exactly
keep_alive seconds after the previous event and the stream keeps going;
the stream ends only when the request source itself ends (a trace with no
source-end yields one packet per poll); with no requests at all the pings
come at (i+1)K, the first at K seconds. -/
theorem C7_request_stream_ping :
    (∀ (ka now : Nat) (rest : List ReqRead),
      requestStream ka now (.Quiet :: rest) =
        (now + ka, .Pingreq) :: requestStream ka (now + ka) rest) ∧
    (∀ (ka now : Nat) (trace : List ReqRead), (∀ r ∈ trace, r.isEnd = false) →
      (requestStream ka now trace).length = trace.length) ∧
    (∀ ka n : Nat, requestStream ka 0 (List.replicate n .Quiet) =
      (List.range n).map fun i => ((i + 1) * ka, CPacket.Pingreq)) := by
  refine ⟨?_, ?_, ?_⟩
  · intro ka now rest
    simp [requestStream]
  · intro ka now trace h
    exact requestStream_length ka trace now h
  · intro ka n
    rw [requestStream_replicate]
    simp

/-- Witness for C7: a quiet window then a user disconnect request — the
stream yields one packet per poll and does not end early. -/
theorem C7_request_stream_ping_witness :
    (requestStream 5 0 [.Quiet, .Next 1 (some .Disconnect)]).length =
      ([ReqRead.Quiet, .Next 1 (some .Disconnect)] : List ReqRead).length :=
  C7_request_stream_ping.2.1 5 0 [.Quiet, .Next 1 (some .Disconnect)] (by decide)

section ConnectLemmas

/-- Each awaited step of connect() elapses at most the timeout limit. -/
theorem timeoutStep_snd_le (limit : Nat) (time : Option Nat)
    (result : Except EventLoopError Unit) : (timeoutStep limit time result).2 ≤ limit := by
  rcases time with _ | d
  · simp [timeoutStep]
  · simp only [timeoutStep]
    split
    · simp
    · simp
      omega

/-- A step whose future never finishes within the limit turns into
Timeout after exactly the limit. -/
theorem timeoutStep_exceeds (limit : Nat) (time : Option Nat)
    (result : Except EventLoopError Unit) (h : ∀ d, time = some d → limit < d) :
    timeoutStep limit time result = (.error .Timeout, limit) := by
  rcases time with _ | d
  · rfl
  · simp only [timeoutStep]
    rw [if_pos (h d rfl)]

/-- A step whose future finishes within the limit keeps its own result
and duration. -/
theorem timeoutStep_within (limit : Nat) (d : Nat)
    (result : Except EventLoopError Unit) (h : d ≤ limit) :
    timeoutStep limit (some d) result = (result, d) := by
  simp only [timeoutStep]
  rw [if_neg (by omega)]

end ConnectLemmas

/-- C8: connect() wraps each awaited step — the TCP/TLS network connect,
the MQTT Connect write, and the ConnAck read — in a 5-second timeout, so
the whole call elapses at most 3 × 5 seconds instead of hanging; a step
that does not finish within its window (in particular one that never
finishes, such as connecting to a black hole) makes connect return
EventLoopError::Timeout, at 5 s for the network connect and after the
completed earlier steps for the later ones. -/
theorem C8_connect_timeout :
    (∀ env : ConnectEnv, (connect env).2 ≤ 3 * connectTimeout) ∧
    (∀ env : ConnectEnv, (∀ d, env.network_connect_time = some d → connectTimeout < d) →
      connect env = (.error .Timeout, 5)) ∧
    (∀ (env : ConnectEnv) (d : Nat), env.network_connect_time = some d → d ≤ 5 →
      env.network_connect_result = .ok () →
      (∀ d2, env.mqtt_write_time = some d2 → connectTimeout < d2) →
      connect env = (.error .Timeout, d + 5)) ∧
    (∀ (env : ConnectEnv) (d1 d2 : Nat), env.network_connect_time = some d1 → d1 ≤ 5 →
      env.network_connect_result = .ok () →
      env.mqtt_write_time = some d2 → d2 ≤ 5 → env.mqtt_write_result = .ok () →
      (∀ d3, env.connack_time = some d3 → connectTimeout < d3) →
      connect env = (.error .Timeout, d1 + d2 + 5)) := by
  refine ⟨?_, ?_, ?_, ?_⟩
  · intro env
    have h1 := timeoutStep_snd_le connectTimeout env.network_connect_time
      env.network_connect_result
    have h2 := timeoutStep_snd_le connectTimeout env.mqtt_write_time env.mqtt_write_result
    have h3 := timeoutStep_snd_le connectTimeout env.connack_time env.connack_result
    unfold connect
    rcases hs1 : timeoutStep connectTimeout env.network_connect_time
      env.network_connect_result with ⟨r1, t1⟩
    rw [hs1] at h1
    rcases r1 with e1 | u1
    · show t1 ≤ 3 * connectTimeout
      omega
    · rcases hs2 : timeoutStep connectTimeout env.mqtt_write_time
        env.mqtt_write_result with ⟨r2, t2⟩
      rw [hs2] at h2
      rcases r2 with e2 | u2
      · show t1 + t2 ≤ 3 * connectTimeout
        omega
      · rcases hs3 : timeoutStep connectTimeout env.connack_time
          env.connack_result with ⟨r3, t3⟩
        rw [hs3] at h3
        rcases r3 with e3 | u3
        · show t1 + t2 + t3 ≤ 3 * connectTimeout
          omega
        · show t1 + t2 + t3 ≤ 3 * connectTimeout
          omega
  · intro env h
    unfold connect
    rw [timeoutStep_exceeds connectTimeout env.network_connect_time
      env.network_connect_result h]
    rfl
  · intro env d h1 hd hres h2
    unfold connect
    rw [h1, timeoutStep_within connectTimeout d env.network_connect_result (by simpa using hd),
      hres]
    rw [timeoutStep_exceeds connectTimeout env.mqtt_write_time env.mqtt_write_result h2]
    rfl
  · intro env d1 d2 h1 hd1 hres1 h2 hd2 hres2 h3
    unfold connect
    rw [h1, timeoutStep_within connectTimeout d1 env.network_connect_result (by simpa using hd1),
      hres1]
    rw [h2, timeoutStep_within connectTimeout d2 env.mqtt_write_result (by simpa using hd2),
      hres2]
    rw [timeoutStep_exceeds connectTimeout env.connack_time env.connack_result h3]
    rfl

/-- Witness for C8: a black-hole endpoint (the network connect never
finishes) makes connect return Timeout at exactly 5 seconds. -/
theorem C8_connect_timeout_witness :
    connect ⟨none, .ok (), some 1, .ok (), some 1, .ok ()⟩ = (.error .Timeout, 5) :=
  C8_connect_timeout.2.1 ⟨none, .ok (), some 1, .ok (), some 1, .ok ()⟩
    (fun d hd => by simp at hd)
